import Mathlib

/-!
Verification of the market-monitor pipeline: the indicator engine
(`engineer_features`), the input preparer (`prepare_input`), the result
logger (`log_result`), the signal classifier (`get_signal`) and the
subscriber store, shallowly embedded from the Python sources.

Numeric cells are modelled by `FVal`, rational numbers extended with the
IEEE special values NaN and plus/minus infinity, with the arithmetic the
pandas float operations perform on them. The rational arithmetic itself
goes through the explicit `qadd`, `qsub`, `qmul`, `qdiv`, `qneg`, `qsum`
wrappers, each proved equal to the corresponding library operation below
(`qadd_eq` and friends); the wrappers exist only because the library
operations are irreducible and concrete runs of the pipeline must reduce
inside the kernel.
-/

/-- Addition on ℚ through the smart constructor; equals `a + b`. -/
def qadd (a b : ℚ) : ℚ := mkRat (a.num * b.den + b.num * a.den) (a.den * b.den)

/-- Subtraction on ℚ through the smart constructor; equals `a - b`. -/
def qsub (a b : ℚ) : ℚ := mkRat (a.num * b.den - b.num * a.den) (a.den * b.den)

/-- Multiplication on ℚ through the smart constructor; equals `a * b`. -/
def qmul (a b : ℚ) : ℚ := mkRat (a.num * b.num) (a.den * b.den)

/-- Division on ℚ through the smart constructor; equals `a / b`. -/
def qdiv (a b : ℚ) : ℚ :=
  if 0 ≤ b.num then mkRat (a.num * b.den) (a.den * b.num.natAbs)
  else mkRat (-(a.num * b.den)) (a.den * b.num.natAbs)

/-- Negation on ℚ through the smart constructor; equals `-a`. -/
def qneg (a : ℚ) : ℚ := mkRat (-a.num) a.den

/-- Sum of a list of rationals; equals `l.sum`. -/
def qsum (l : List ℚ) : ℚ := l.foldr qadd 0

/-- The floor of a rational. -/
def qfloor (q : ℚ) : ℤ := q.num.fdiv q.den

/-- A float cell value: a finite rational, plus or minus infinity, or NaN. -/
inductive FVal where
  | fin : ℚ → FVal
  | inf : FVal
  | ninf : FVal
  | nan : FVal
deriving DecidableEq

namespace FVal

/-- IEEE addition on cell values. -/
def add : FVal → FVal → FVal
  | nan, _ => nan
  | _, nan => nan
  | fin a, fin b => fin (qadd a b)
  | fin _, inf => inf
  | inf, fin _ => inf
  | inf, inf => inf
  | fin _, ninf => ninf
  | ninf, fin _ => ninf
  | ninf, ninf => ninf
  | inf, ninf => nan
  | ninf, inf => nan

/-- IEEE subtraction on cell values. -/
def sub : FVal → FVal → FVal
  | nan, _ => nan
  | _, nan => nan
  | fin a, fin b => fin (qsub a b)
  | fin _, inf => ninf
  | inf, fin _ => inf
  | fin _, ninf => inf
  | ninf, fin _ => ninf
  | inf, inf => nan
  | ninf, ninf => nan
  | inf, ninf => inf
  | ninf, inf => ninf

/-- IEEE multiplication on cell values. -/
def mul : FVal → FVal → FVal
  | nan, _ => nan
  | _, nan => nan
  | fin a, fin b => fin (qmul a b)
  | fin a, inf => if a = 0 then nan else if 0 < a then inf else ninf
  | inf, fin b => if b = 0 then nan else if 0 < b then inf else ninf
  | fin a, ninf => if a = 0 then nan else if 0 < a then ninf else inf
  | ninf, fin b => if b = 0 then nan else if 0 < b then ninf else inf
  | inf, inf => inf
  | ninf, ninf => inf
  | inf, ninf => ninf
  | ninf, inf => ninf

/-- IEEE division on cell values; a nonzero finite value divided by zero
gives a signed infinity and zero divided by zero gives NaN, exactly as
numpy float division behaves inside a pandas column. -/
def div : FVal → FVal → FVal
  | nan, _ => nan
  | _, nan => nan
  | fin a, fin b =>
      if b = 0 then (if a = 0 then nan else if 0 < a then inf else ninf)
      else fin (qdiv a b)
  | fin _, inf => fin 0
  | fin _, ninf => fin 0
  | inf, fin b => if 0 ≤ b then inf else ninf
  | ninf, fin b => if 0 ≤ b then ninf else inf
  | inf, inf => nan
  | ninf, ninf => nan
  | inf, ninf => nan
  | ninf, inf => nan

/-- IEEE strict order: any comparison against NaN is false. -/
def lt : FVal → FVal → Bool
  | fin a, fin b => decide (a < b)
  | fin _, inf => true
  | ninf, fin _ => true
  | ninf, inf => true
  | _, _ => false

/-- IEEE strict greater-than. -/
def gt (x y : FVal) : Bool := lt y x

/-- Negation of a cell value. -/
def neg : FVal → FVal
  | fin a => fin (qneg a)
  | inf => ninf
  | ninf => inf
  | nan => nan

/-- Test for NaN. -/
def isNaN : FVal → Bool
  | nan => true
  | _ => false

end FVal

/-- Extract the list of finite rationals when no cell is infinite or NaN;
mirrors the way a pandas rolling window is only fully numeric when every
member is a plain float. -/
def allFin? : List FVal → Option (List ℚ)
  | [] => some []
  | FVal.fin q :: xs => (allFin? xs).map (fun r => q :: r)
  | _ :: _ => none

/-- One OHLCV bar; dates are abstract day numbers. -/
structure Bar where
  date : ℕ
  open_ : ℚ
  high : ℚ
  low : ℚ
  close : ℚ
  volume : ℚ
deriving DecidableEq

instance : Inhabited Bar := ⟨⟨0, 0, 0, 0, 0, 0⟩⟩

/-- The close series of a bar list as cell values (always finite). -/
def closeS (bars : List Bar) (t : ℕ) : FVal := .fin (bars.getD t default).close

/-- The volume series of a bar list as cell values (always finite). -/
def volumeS (bars : List Bar) (t : ℕ) : FVal := .fin (bars.getD t default).volume

/-- The indices of the trailing window of length n ending at index t. -/
def windowIdx (n t : ℕ) : List ℕ := (List.range n).map (fun k => t + 1 - n + k)

/-- The cell values of the trailing window of length n ending at t. -/
def winVals (n : ℕ) (f : ℕ → FVal) (t : ℕ) : List FVal := (windowIdx n t).map f

/-- Pandas Series.rolling(n).mean(): NaN while the window is incomplete,
otherwise the IEEE sum of the window divided by n. -/
def rollMean (n : ℕ) (f : ℕ → FVal) (t : ℕ) : FVal :=
  if t + 1 < n then .nan
  else FVal.div ((winVals n f t).foldl FVal.add (.fin 0)) (.fin (n : ℚ))

/-- Pandas Series.rolling(n).std() with ddof = 1 (sample deviation): NaN
while the window is incomplete or contains a non-finite value. Since ℚ has
no square root, the value carried for a numeric window is the sample
variance rather than its square root; no claim refers to the magnitude of
a standard-deviation column, only to whether it is defined, and the
variance is NaN, finite and zero exactly when the standard deviation is. -/
def rollStd (n : ℕ) (f : ℕ → FVal) (t : ℕ) : FVal :=
  if t + 1 < n then .nan
  else
    match allFin? (winVals n f t) with
    | some qs =>
        let m := qdiv (qsum qs) (n : ℚ)
        .fin (qdiv (qsum (qs.map fun x => qmul (qsub x m) (qsub x m)))
          (qsub (n : ℚ) 1))
    | none => .nan

/-- Pandas Series.ewm(span, adjust=False).mean() on an everywhere-defined
series: the recursion EMA 0 = x 0, EMA t = a * x t + (1 - a) * EMA (t-1)
with a = 2 / (span + 1). -/
def ewm (span : ℕ) (f : ℕ → FVal) : ℕ → FVal
  | 0 => f 0
  | t + 1 =>
      FVal.add (FVal.mul (.fin (qdiv 2 (qadd (span : ℚ) 1))) (f (t + 1)))
        (FVal.mul (.fin (qsub 1 (qdiv 2 (qadd (span : ℚ) 1)))) (ewm span f t))

/-- Pandas Series.diff(): NaN at index 0. -/
def diffS (bars : List Bar) (t : ℕ) : FVal :=
  if t = 0 then .nan
  else .fin (qsub (bars.getD t default).close (bars.getD (t - 1) default).close)

/-- delta.where(delta > 0, 0): the comparison against NaN is false, so the
leading NaN becomes 0. -/
def gainS (bars : List Bar) (t : ℕ) : FVal :=
  if FVal.gt (diffS bars t) (.fin 0) then diffS bars t else .fin 0

/-- -(delta.where(delta < 0, 0)). -/
def lossS (bars : List Bar) (t : ℕ) : FVal :=
  FVal.neg (if FVal.lt (diffS bars t) (.fin 0) then diffS bars t else .fin 0)

/-- gain.rolling(14).mean() from the RSI block. -/
def gainMean (bars : List Bar) (t : ℕ) : FVal := rollMean 14 (gainS bars) t

/-- loss.rolling(14).mean() from the RSI block. -/
def lossMean (bars : List Bar) (t : ℕ) : FVal := rollMean 14 (lossS bars) t

/-- RSI = 100 - (100 / (1 + gain / loss)). -/
def RSIcol (bars : List Bar) (t : ℕ) : FVal :=
  FVal.sub (.fin 100)
    (FVal.div (.fin 100)
      (FVal.add (.fin 1) (FVal.div (gainMean bars t) (lossMean bars t))))

/-- MA_n = Close.rolling(n).mean(). -/
def MAcol (bars : List Bar) (n t : ℕ) : FVal := rollMean n (closeS bars) t

/-- EMA_12 = Close.ewm(span=12, adjust=False).mean(). -/
def EMA12 (bars : List Bar) (t : ℕ) : FVal := ewm 12 (closeS bars) t

/-- EMA_26 = Close.ewm(span=26, adjust=False).mean(). -/
def EMA26 (bars : List Bar) (t : ℕ) : FVal := ewm 26 (closeS bars) t

/-- MACD = EMA_12 - EMA_26. -/
def MACDcol (bars : List Bar) (t : ℕ) : FVal := FVal.sub (EMA12 bars t) (EMA26 bars t)

/-- MACD_Signal = MACD.ewm(span=9, adjust=False).mean(). -/
def MACDSignal (bars : List Bar) (t : ℕ) : FVal := ewm 9 (MACDcol bars) t

/-- BB_Middle = Close.rolling(20).mean(). -/
def BBMiddle (bars : List Bar) (t : ℕ) : FVal := rollMean 20 (closeS bars) t

/-- bb_std = Close.rolling(20).std(). -/
def bbStd (bars : List Bar) (t : ℕ) : FVal := rollStd 20 (closeS bars) t

/-- BB_Upper = BB_Middle + bb_std * 2. -/
def BBUpper (bars : List Bar) (t : ℕ) : FVal :=
  FVal.add (BBMiddle bars t) (FVal.mul (bbStd bars t) (.fin 2))

/-- BB_Lower = BB_Middle - bb_std * 2. -/
def BBLower (bars : List Bar) (t : ℕ) : FVal :=
  FVal.sub (BBMiddle bars t) (FVal.mul (bbStd bars t) (.fin 2))

/-- Daily_Return = Close.pct_change(): NaN at index 0, and the float
division (close t - close (t-1)) / close (t-1) elsewhere. -/
def DailyReturn (bars : List Bar) (t : ℕ) : FVal :=
  if t = 0 then .nan
  else
    FVal.div (.fin (qsub (bars.getD t default).close (bars.getD (t - 1) default).close))
      (.fin ((bars.getD (t - 1) default).close))

/-- Price_Range = High - Low. -/
def PriceRange (bars : List Bar) (t : ℕ) : FVal :=
  .fin (qsub (bars.getD t default).high (bars.getD t default).low)

/-- Price_Change = Close - Open. -/
def PriceChange (bars : List Bar) (t : ℕ) : FVal :=
  .fin (qsub (bars.getD t default).close (bars.getD t default).open_)

/-- Volume_MA_5 = Volume.rolling(5).mean(). -/
def VolumeMA5 (bars : List Bar) (t : ℕ) : FVal := rollMean 5 (volumeS bars) t

/-- The Volume_Ratio column, Volume / Volume_MA_5. -/
def VolumeRatioCol (bars : List Bar) (t : ℕ) : FVal :=
  FVal.div (volumeS bars t) (VolumeMA5 bars t)

/-- Volatility = Daily_Return.rolling(20).std(). -/
def Volatility (bars : List Bar) (t : ℕ) : FVal := rollStd 20 (DailyReturn bars) t

/-- Close_Lag_k = Close.shift(k). -/
def CloseLag (bars : List Bar) (k t : ℕ) : FVal :=
  if t < k then .nan else .fin ((bars.getD (t - k) default).close)

/-- Volume_Lag_k = Volume.shift(k). -/
def VolumeLag (bars : List Bar) (k t : ℕ) : FVal :=
  if t < k then .nan else .fin ((bars.getD (t - k) default).volume)

/-- Names of every column of the engineered table, raw OHLCV first, in
the order the script creates them. -/
def allCols : List String :=
  ["Open", "High", "Low", "Close", "Volume",
   "MA_5", "MA_10", "MA_20", "MA_50", "EMA_12", "EMA_26", "MACD",
   "MACD_Signal", "RSI", "BB_Middle", "BB_Upper", "BB_Lower",
   "Daily_Return", "Price_Range", "Price_Change", "Volume_MA_5",
   "Volume_Ratio", "Volatility",
   "Close_Lag_1", "Volume_Lag_1", "Close_Lag_2", "Volume_Lag_2",
   "Close_Lag_3", "Volume_Lag_3", "Close_Lag_5", "Volume_Lag_5",
   "Close_Lag_7", "Volume_Lag_7"]

/-- The full row of cells at index t, in the order of `allCols`. -/
def fullRow (bars : List Bar) (t : ℕ) : List FVal :=
  [.fin (bars.getD t default).open_, .fin (bars.getD t default).high,
   .fin (bars.getD t default).low, .fin (bars.getD t default).close,
   .fin (bars.getD t default).volume,
   MAcol bars 5 t, MAcol bars 10 t, MAcol bars 20 t, MAcol bars 50 t,
   EMA12 bars t, EMA26 bars t, MACDcol bars t, MACDSignal bars t,
   RSIcol bars t, BBMiddle bars t, BBUpper bars t, BBLower bars t,
   DailyReturn bars t, PriceRange bars t, PriceChange bars t,
   VolumeMA5 bars t, VolumeRatioCol bars t, Volatility bars t,
   CloseLag bars 1 t, VolumeLag bars 1 t, CloseLag bars 2 t, VolumeLag bars 2 t,
   CloseLag bars 3 t, VolumeLag bars 3 t, CloseLag bars 5 t, VolumeLag bars 5 t,
   CloseLag bars 7 t, VolumeLag bars 7 t]

/-- The dense feature table: one (date, cells) row per input bar, with
every row containing a NaN dropped, exactly the effect of df.dropna() at
the end of engineer_features. -/
def featureTable (bars : List Bar) : List (ℕ × List FVal) :=
  (List.range bars.length).filterMap fun t =>
    if (fullRow bars t).any FVal.isNaN then none
    else some ((bars.getD t default).date, fullRow bars t)

/-- MarketMonitor.engineer_features: the body never raises for a
well-formed bar list (every column it reads exists), so the surrounding
try/except always returns the computed table, empty or not. -/
def engineer_features (bars : List Bar) : Option (List (ℕ × List FVal)) :=
  some (featureTable bars)

/-- The date of the last returned row, when one exists. -/
def lastDate? (table : List (ℕ × List FVal)) : Option ℕ :=
  table.getLast?.map Prod.fst

/-- Whether consecutive bars carry consecutive dates (no calendar gaps). -/
def noGapsB (bars : List Bar) : Bool :=
  (bars.zip bars.tail).all fun p => p.2.date == p.1.date + 1

/-- Indices of the required columns among the table columns; None models
the KeyError pandas raises when a declared feature is absent. -/
def idxsOf? (cols : List String) : List String → Option (List ℕ)
  | [] => some []
  | c :: cs =>
      match cols.indexOf? c, idxsOf? cols cs with
      | some i, some is => some (i :: is)
      | _, _ => none

/-- Column selection df[feature_cols]: the selected cells of every row in
the declared order, or None when a declared feature is absent. -/
def selectCols (cols target : List String) (rows : List (List FVal)) :
    Option (List (List FVal)) :=
  (idxsOf? cols target).map fun idxs =>
    rows.map fun r => idxs.map fun i => r.getD i .nan

/-- df.replace([np.inf, -np.inf], np.nan) on one cell. -/
def replaceInfCell (x : FVal) : FVal :=
  match x with
  | .inf => .nan
  | .ninf => .nan
  | y => y

/-- df.fillna(0) on one cell. -/
def fillZeroCell (x : FVal) : FVal := if x.isNaN then .fin 0 else x

/-- One row of a forward fill: a NaN cell takes the value above it. -/
def ffillStep (prev r : List FVal) : List FVal :=
  (r.zip prev).map fun p => if p.1.isNaN then p.2 else p.1

/-- Forward fill of the remaining rows given the filled row above. -/
def ffillAux : List FVal → List (List FVal) → List (List FVal)
  | _, [] => []
  | prev, r :: rs =>
      let r2 := ffillStep prev r
      r2 :: ffillAux r2 rs

/-- df.ffill(): each NaN takes the nearest defined value above it in the
same column; the first row has no rows above it and is unchanged. -/
def ffillRows : List (List FVal) → List (List FVal)
  | [] => []
  | r :: rs => r :: ffillAux r rs

/-- Conversion of fully numeric rows back to rationals. -/
def toRatRows? (rows : List (List FVal)) : Option (List (List ℚ)) :=
  rows.mapM allFin?

/-- MarketMonitor.prepare_input. The scaler is the external collaborator,
an opaque transform that may fail (it does fail on an empty slice).
Steps, in source order: select the declared feature columns (KeyError on
a missing one is caught and yields None), slice iloc[-1:], replace the
infinities by NaN, and when any NaN remains forward-fill THE SLICE and
zero-fill, then apply the scaler. Returns the scaled rows and the raw
(pre-scale, post-fill) slice. -/
def prepare_input (scaler : List (List ℚ) → Option (List (List ℚ)))
    (features cols : List String) (rows : List (List FVal)) :
    Option (List (List ℚ) × List (List FVal)) :=
  match selectCols cols features rows with
  | none => none
  | some sel =>
      let latest0 := sel.drop (sel.length - 1)
      let latest1 := latest0.map fun r => r.map replaceInfCell
      let latest2 :=
        if latest1.any (fun r => r.any FVal.isNaN) then
          (ffillRows latest1).map fun r => r.map fillZeroCell
        else latest1
      match toRatRows? latest2 with
      | none => none
      | some q => (scaler q).map fun s => (s, latest2)

/-- The input preparer with the forward-fill step removed: select, slice
the most recent row, turn each infinity into NaN and each NaN into 0,
then scale. (The amended reading of claim C7: since the source slices
before filling, the forward fill can never see an earlier row.) -/
def prepare_input_nofill (scaler : List (List ℚ) → Option (List (List ℚ)))
    (features cols : List String) (rows : List (List FVal)) :
    Option (List (List ℚ) × List (List FVal)) :=
  match selectCols cols features rows with
  | none => none
  | some sel =>
      let latest0 := sel.drop (sel.length - 1)
      let latest2 := latest0.map fun r => r.map fun x => fillZeroCell (replaceInfCell x)
      match toRatRows? latest2 with
      | none => none
      | some q => (scaler q).map fun s => (s, latest2)

/-- The input preparer exactly as claim C7 words it: select the declared
columns, replace the infinities, forward-fill every remaining undefined
value FROM EARLIER ROWS of the table in the same column, default the rest
to 0, and only then keep the most recent row and scale it. -/
def prepare_input_claim (scaler : List (List ℚ) → Option (List (List ℚ)))
    (features cols : List String) (rows : List (List FVal)) :
    Option (List (List ℚ) × List (List FVal)) :=
  match selectCols cols features rows with
  | none => none
  | some sel =>
      let filled := ffillRows (sel.map fun r => r.map replaceInfCell)
      let latest2 :=
        (filled.drop (filled.length - 1)).map fun r => r.map fillZeroCell
      match toRatRows? latest2 with
      | none => none
      | some q => (scaler q).map fun s => (s, latest2)

/-- One prediction record as the result logger appends it. -/
structure LogEntry where
  current_price : ℚ
  predicted_price : ℚ
  price_change : ℚ
  price_change_pct : ℚ
  rsi : Option ℚ
  macd : Option ℚ
deriving DecidableEq

/-- Round to the nearest integer, ties to the even neighbour, the
behaviour of the Python built-in round. -/
def roundHalfEven (q : ℚ) : ℤ :=
  if qsub q (mkRat (qfloor q) 1) = mkRat 1 2 then
    (if qfloor q % 2 = 0 then qfloor q else qfloor q + 1)
  else if qsub q (mkRat (qfloor q) 1) < mkRat 1 2 then qfloor q
  else qfloor q + 1

/-- round(x, 2) of the Python built-in on an exact rational. -/
def pyRound2 (q : ℚ) : ℚ := mkRat (roundHalfEven (qmul q 100)) 100

/-- MarketMonitor.log_result of monitor/monitor.py (multi-ticker
version): computes change and percent change, rounds every numeric field
to 2 decimals, and appends the record. When current_price is 0 the
division raises ZeroDivisionError, the except swallows it and returns
None, and since the division precedes the file write the log is returned
unchanged. -/
def log_result (current predicted : ℚ) (rsi macd : Option ℚ)
    (log : List LogEntry) : Option LogEntry × List LogEntry :=
  if current = 0 then (none, log)
  else
    let change := qsub predicted current
    let change_pct := qmul (qdiv change current) 100
    let e : LogEntry :=
      ⟨pyRound2 current, pyRound2 predicted, pyRound2 change, pyRound2 change_pct,
       rsi.map pyRound2, macd.map pyRound2⟩
    (some e, log ++ [e])

/-- MarketMonitor.log_result of scripts/monitor.py (legacy version): the
same computation but the record stores the raw float values, with no
rounding anywhere. -/
def log_result_scripts (current predicted : ℚ) (rsi macd : Option ℚ)
    (log : List LogEntry) : Option LogEntry × List LogEntry :=
  if current = 0 then (none, log)
  else
    let change := qsub predicted current
    let change_pct := qmul (qdiv change current) 100
    let e : LogEntry := ⟨current, predicted, change, change_pct, rsi, macd⟩
    (some e, log ++ [e])

/-- The run_pipeline step after log_result: a None entry exits the
process with status 1, otherwise the run continues with the entry. -/
def pipelineLogStep (r : Option LogEntry) : Except ℕ LogEntry :=
  match r with
  | none => .error 1
  | some e => .ok e

/-- Python truthiness of the optional rsi argument: None and 0 are both
falsy. -/
def pyTruthy : Option ℚ → Bool
  | none => false
  | some r => r != 0

/-- get_signal of Streamlit_app/app.py. The source guards the RSI rules
with the bare truthiness test on rsi, so both a missing RSI and a zero
RSI take the threshold-only branch; inside either branch the first
matching rule wins and the fall-through is HOLD. The literal mkRat 1 2
is the source constant 0.5. -/
def get_signal (price_change_pct : ℚ) (rsi : Option ℚ) : String × String :=
  if pyTruthy rsi then
    let r := rsi.getD 0
    if price_change_pct > 2 ∧ r < 70 then ("🟢 STRONG BUY", "signal-buy")
    else if price_change_pct > mkRat 1 2 ∧ r < 65 then ("🟢 BUY", "signal-buy")
    else if price_change_pct < -2 ∧ r > 30 then ("🔴 STRONG SELL", "signal-sell")
    else if price_change_pct < mkRat (-1) 2 ∧ r > 35 then ("🔴 SELL", "signal-sell")
    else ("🟡 HOLD", "signal-hold")
  else
    if price_change_pct > 2 then ("🟢 STRONG BUY", "signal-buy")
    else if price_change_pct > mkRat 1 2 then ("🟢 BUY", "signal-buy")
    else if price_change_pct < -2 then ("🔴 STRONG SELL", "signal-sell")
    else if price_change_pct < mkRat (-1) 2 then ("🔴 SELL", "signal-sell")
    else ("🟡 HOLD", "signal-hold")

/-- The classifier exactly as claim C2 words it: whenever an RSI value is
present, zero included, the RSI-conditioned ordered rules apply; when it
is absent the same thresholds drop the RSI conjunct. -/
def classify_claim (price_change_pct : ℚ) : Option ℚ → String × String
  | some r =>
      if price_change_pct > 2 ∧ r < 70 then ("🟢 STRONG BUY", "signal-buy")
      else if price_change_pct > mkRat 1 2 ∧ r < 65 then ("🟢 BUY", "signal-buy")
      else if price_change_pct < -2 ∧ r > 30 then ("🔴 STRONG SELL", "signal-sell")
      else if price_change_pct < mkRat (-1) 2 ∧ r > 35 then ("🔴 SELL", "signal-sell")
      else ("🟡 HOLD", "signal-hold")
  | none =>
      if price_change_pct > 2 then ("🟢 STRONG BUY", "signal-buy")
      else if price_change_pct > mkRat 1 2 then ("🟢 BUY", "signal-buy")
      else if price_change_pct < -2 then ("🔴 STRONG SELL", "signal-sell")
      else if price_change_pct < mkRat (-1) 2 then ("🔴 SELL", "signal-sell")
      else ("🟡 HOLD", "signal-hold")

/-- The emails field of the subscriber store: the legacy flat list or the
per-ticker map. -/
inductive EmailsVal where
  | flat : List String → EmailsVal
  | perTicker : List (String × List String) → EmailsVal
deriving DecidableEq

/-- The TICKERS registry keys of Streamlit_app/app.py. -/
def tickersKeys : List String :=
  ["AAPL", "MSFT", "GOOGL", "AMZN", "TSLA", "META", "NVDA", "JPM", "V", "JNJ"]

/-- MarketMonitor.load_subscribers of monitor/monitor.py: a per-ticker
map is indexed by the ticker, and a legacy flat list is returned whole
for every ticker. A pure read: nothing is written back. -/
def monitorLoadSubscribers (ticker : String) : EmailsVal → List String
  | .perTicker m => (m.lookup ticker).getD []
  | .flat l => l

/-- load_subscribers of Streamlit_app/app.py (multi-ticker dashboard): a
per-ticker map is returned as is, while a legacy flat list is replaced by
a fresh map with an empty list per registered ticker; the flat list is
discarded for reading, though nothing is written back to the store. -/
def appLoadSubscribers : EmailsVal → List (String × List String)
  | .perTicker m => m
  | .flat _ => tickersKeys.map fun t => (t, [])

/-- What the multi-ticker dashboard reads for one ticker: its pages index
the loaded map with data.get(ticker, []). -/
def appGetSubscribers (ticker : String) (s : EmailsVal) : List String :=
  ((appLoadSubscribers s).lookup ticker).getD []

/-- get_subscribers of the per-ticker dashboard: a legacy flat list is
returned whole for every ticker. -/
def getSubscribersPT (ticker : String) : EmailsVal → List String
  | .flat l => l
  | .perTicker m => (m.lookup ticker).getD []

/-- dict.setdefault(ticker, []) on an association list. -/
def setdefaultKey (k : String) (m : List (String × List String)) :
    List (String × List String) :=
  if (m.lookup k).isSome then m else m ++ [(k, [])]

/-- Append one email to the list stored under a key. -/
def appendAt (k e : String) (m : List (String × List String)) :
    List (String × List String) :=
  m.map fun p => if p.1 = k then (p.1, p.2 ++ [e]) else p

/-- The in-memory migration add_subscriber performs first: a legacy flat
list becomes a map under AAPL; a map is kept. -/
def migrateEmails : EmailsVal → List (String × List String)
  | .flat l => [("AAPL", l)]
  | .perTicker m => m

/-- add_subscriber of the per-ticker dashboard: the store is migrated in
memory with `migrateEmails`; when the email is already present the
function returns before saving, so the stored document stays exactly as
it was; otherwise the email is appended and the migrated map is saved. -/
def add_subscriber (ticker email : String) (s : EmailsVal) :
    (Bool × String) × EmailsVal :=
  let m := setdefaultKey ticker (migrateEmails s)
  if email ∈ (m.lookup ticker).getD [] then
    ((false, "Already subscribed to this ticker."), s)
  else
    ((true, "Successfully subscribed! 🎉"), .perTicker (appendAt ticker email m))

/-- The close price at an index, as a rational. -/
def cQ (bars : List Bar) (i : ℕ) : ℚ := (bars.getD i default).close

/-- The volume at an index, as a rational. -/
def vQ (bars : List Bar) (i : ℕ) : ℚ := (bars.getD i default).volume

/-- The price change at an index (0 at index 0), as a rational. -/
def dQ (bars : List Bar) (i : ℕ) : ℚ :=
  if i = 0 then 0 else qsub (cQ bars i) (cQ bars (i - 1))

/-- The gain series value at an index, as a rational. -/
def gainQ (bars : List Bar) (i : ℕ) : ℚ := if 0 < dQ bars i then dQ bars i else 0

/-- The loss series value at an index, as a rational. -/
def lossQ (bars : List Bar) (i : ℕ) : ℚ := if dQ bars i < 0 then -dQ bars i else 0

/-- A bar with equal open, high, low and close. -/
def mkBar (d : ℕ) (c v : ℚ) : Bar := ⟨d, c, c, c, c, v⟩

/-- Fifty gap-free bars with a constant close of 1: every price change is
zero, so both RSI rolling means vanish and RSI is NaN on every row. -/
def constBars : List Bar := (List.range 50).map fun t => mkBar t 1 1

/-- Fifty gap-free bars with strictly increasing closes 1, 2, ..., 50:
the loss rolling mean vanishes while the gain mean stays positive. -/
def incBars : List Bar := (List.range 50).map fun t => mkBar t (mkRat ((t : ℤ) + 1) 1) 1

/-- Fifty gap-free bars with strictly decreasing closes 100, 99, ...: the
loss rolling mean is the constant 1. -/
def decBars : List Bar := (List.range 50).map fun t => mkBar t (mkRat (100 - (t : ℤ)) 1) 1

/-! Bridge lemmas: the reducible arithmetic wrappers agree with the
library operations on ℚ. -/

theorem qadd_eq (a b : ℚ) : qadd a b = a + b := by
  unfold qadd
  rw [Rat.mkRat_eq_divInt, Rat.divInt_eq_div]
  push_cast
  conv_rhs => rw [← Rat.num_div_den a, ← Rat.num_div_den b]
  have ha : ((a.den : ℚ)) ≠ 0 := by positivity
  have hb : ((b.den : ℚ)) ≠ 0 := by positivity
  field_simp

theorem qsub_eq (a b : ℚ) : qsub a b = a - b := by
  unfold qsub
  rw [Rat.mkRat_eq_divInt, Rat.divInt_eq_div]
  push_cast
  conv_rhs => rw [← Rat.num_div_den a, ← Rat.num_div_den b]
  have ha : ((a.den : ℚ)) ≠ 0 := by positivity
  have hb : ((b.den : ℚ)) ≠ 0 := by positivity
  field_simp
  ring

theorem qmul_eq (a b : ℚ) : qmul a b = a * b := by
  unfold qmul
  rw [Rat.mkRat_eq_divInt, Rat.divInt_eq_div]
  push_cast
  conv_rhs => rw [← Rat.num_div_den a, ← Rat.num_div_den b]
  have ha : ((a.den : ℚ)) ≠ 0 := by positivity
  have hb : ((b.den : ℚ)) ≠ 0 := by positivity
  field_simp

theorem qneg_eq (a : ℚ) : qneg a = -a := by
  unfold qneg
  rw [Rat.mkRat_eq_divInt, Rat.divInt_eq_div]
  push_cast
  conv_rhs => rw [← Rat.num_div_den a]
  rw [neg_div]

theorem rat_eq_zero_of_num (a : ℚ) (h : a.num = 0) : a = 0 := by
  have hd := a.num_div_den
  rw [h] at hd
  simpa using hd.symm

theorem qdiv_eq (a b : ℚ) : qdiv a b = a / b := by
  unfold qdiv
  rcases lt_trichotomy b.num 0 with h | h | h
  · rw [if_neg (by omega), Rat.mkRat_eq_divInt, Rat.divInt_eq_div]
    have habs : (b.num.natAbs : ℤ) = -b.num := Int.ofNat_natAbs_of_nonpos (le_of_lt h)
    push_cast [habs]
    conv_rhs => rw [← Rat.num_div_den a, ← Rat.num_div_den b]
    have ha : ((a.den : ℚ)) ≠ 0 := by positivity
    have hb : ((b.den : ℚ)) ≠ 0 := by positivity
    have hbn : ((b.num : ℚ)) ≠ 0 := by
      simpa using (Int.cast_ne_zero (α := ℚ)).2 (by omega : b.num ≠ 0)
    field_simp
  · rw [if_pos (by omega)]
    rw [rat_eq_zero_of_num b h]
    simp [h, Rat.mkRat_eq_divInt]
  · rw [if_pos (by omega), Rat.mkRat_eq_divInt, Rat.divInt_eq_div]
    have habs : (b.num.natAbs : ℤ) = b.num := Int.natAbs_of_nonneg (le_of_lt h)
    push_cast [habs]
    conv_rhs => rw [← Rat.num_div_den a, ← Rat.num_div_den b]
    have ha : ((a.den : ℚ)) ≠ 0 := by positivity
    have hb : ((b.den : ℚ)) ≠ 0 := by positivity
    have hbn : ((b.num : ℚ)) ≠ 0 := by
      simpa using (Int.cast_ne_zero (α := ℚ)).2 (by omega : b.num ≠ 0)
    field_simp

theorem qsum_eq (l : List ℚ) : qsum l = l.sum := by
  unfold qsum
  induction l with
  | nil => rfl
  | cons x xs ih => rw [List.foldr_cons, qadd_eq, ih, List.sum_cons]

/-! Structural lemmas about the IEEE cell operations. -/

theorem FVal.add_fin (a b : ℚ) : FVal.add (.fin a) (.fin b) = .fin (a + b) := by
  simp [FVal.add, qadd_eq]

theorem FVal.sub_fin (a b : ℚ) : FVal.sub (.fin a) (.fin b) = .fin (a - b) := by
  simp [FVal.sub, qsub_eq]

theorem FVal.mul_fin (a b : ℚ) : FVal.mul (.fin a) (.fin b) = .fin (a * b) := by
  simp [FVal.mul, qmul_eq]

theorem FVal.neg_fin (a : ℚ) : FVal.neg (.fin a) = .fin (-a) := by
  simp [FVal.neg, qneg_eq]

theorem FVal.div_fin (a b : ℚ) (hb : b ≠ 0) :
    FVal.div (.fin a) (.fin b) = .fin (a / b) := by
  simp [FVal.div, hb, qdiv_eq]

theorem FVal.div_fin_zero_pos (a : ℚ) (ha : 0 < a) :
    FVal.div (.fin a) (.fin 0) = .inf := by
  simp [FVal.div, ne_of_gt ha, ha]

theorem FVal.div_zero_zero : FVal.div (.fin 0) (.fin 0) = .nan := by
  simp [FVal.div]

theorem FVal.add_fin_inf (a : ℚ) : FVal.add (.fin a) .inf = .inf := rfl

theorem FVal.div_fin_inf (a : ℚ) : FVal.div (.fin a) .inf = .fin 0 := rfl

theorem FVal.isNaN_fin (a : ℚ) : FVal.isNaN (.fin a) = false := rfl

/-! Window and fold lemmas. -/

theorem foldl_add_map_fin (qs : List ℚ) :
    ∀ a : ℚ, (qs.map FVal.fin).foldl FVal.add (.fin a) = .fin (a + qs.sum) := by
  induction qs with
  | nil => intro a; simp
  | cons x xs ih =>
      intro a
      simp only [List.map_cons, List.foldl_cons, FVal.add_fin, ih, List.sum_cons]
      ring_nf

theorem allFin?_map_fin (qs : List ℚ) : allFin? (qs.map FVal.fin) = some qs := by
  induction qs with
  | nil => rfl
  | cons x xs ih => simp [allFin?, ih]

theorem length_windowIdx (n t : ℕ) : (windowIdx n t).length = n := by
  simp [windowIdx]

theorem mem_windowIdx {n t i : ℕ} (hn : n ≤ t + 1) :
    i ∈ windowIdx n t ↔ t + 1 - n ≤ i ∧ i ≤ t := by
  simp only [windowIdx, List.mem_map, List.mem_range]
  constructor
  · rintro ⟨k, hk, rfl⟩
    omega
  · rintro ⟨h1, h2⟩
    exact ⟨i - (t + 1 - n), by omega, by omega⟩

theorem winVals_eq_of_fn {n t : ℕ} {f : ℕ → FVal} (g : ℕ → ℚ)
    (hf : ∀ i ∈ windowIdx n t, f i = .fin (g i)) :
    winVals n f t = ((windowIdx n t).map g).map FVal.fin := by
  simp only [winVals, List.map_map]
  exact List.map_congr_left fun i hi => by rw [hf i hi]; rfl

theorem rollMean_eq_of_fn {n t : ℕ} {f : ℕ → FVal} (g : ℕ → ℚ)
    (hf : ∀ i ∈ windowIdx n t, f i = .fin (g i)) (hn : n ≤ t + 1) (hpos : 0 < n) :
    rollMean n f t = .fin (((windowIdx n t).map g).sum / n) := by
  rw [rollMean, if_neg (by omega), winVals_eq_of_fn g hf, foldl_add_map_fin, zero_add,
    FVal.div_fin _ _ (by positivity)]

theorem rollMean_nan_of_lt {n t : ℕ} {f : ℕ → FVal} (h : t + 1 < n) :
    rollMean n f t = .nan := by
  rw [rollMean, if_pos h]

theorem rollStd_fin_of_fn {n t : ℕ} {f : ℕ → FVal} (g : ℕ → ℚ)
    (hf : ∀ i ∈ windowIdx n t, f i = .fin (g i)) (hn : n ≤ t + 1) :
    ∃ q, rollStd n f t = .fin q := by
  rw [rollStd, if_neg (by omega), winVals_eq_of_fn g hf, allFin?_map_fin]
  exact ⟨_, rfl⟩

theorem ewm_fin (span : ℕ) {f : ℕ → FVal} (hf : ∀ i, ∃ q, f i = .fin q) :
    ∀ t, ∃ q, ewm span f t = .fin q
  | 0 => hf 0
  | t + 1 => by
      obtain ⟨q, hq⟩ := ewm_fin span hf t
      obtain ⟨r, hr⟩ := hf (t + 1)
      refine ⟨qdiv 2 (qadd (span : ℚ) 1) * r +
        qsub 1 (qdiv 2 (qadd (span : ℚ) 1)) * q, ?_⟩
      simp only [ewm, hq, hr, FVal.mul_fin, FVal.add_fin]

/-! Series-level lemmas: gain, loss and Daily_Return as rationals. -/

theorem isNaN_eq_false_of_fin {x : FVal} (h : ∃ q, x = .fin q) :
    x.isNaN = false := by
  obtain ⟨q, rfl⟩ := h
  rfl

theorem diffS_eq (bars : List Bar) (i : ℕ) (h : i ≠ 0) :
    diffS bars i = .fin (dQ bars i) := by
  simp [diffS, dQ, h, qsub_eq, cQ]

theorem gainS_eq (bars : List Bar) (i : ℕ) : gainS bars i = .fin (gainQ bars i) := by
  rcases eq_or_ne i 0 with rfl | h
  · simp [gainS, diffS, FVal.gt, FVal.lt, gainQ, dQ]
  · rw [gainS, diffS_eq bars i h]
    by_cases hd : 0 < dQ bars i
    · simp [FVal.gt, FVal.lt, gainQ, hd]
    · simp [FVal.gt, FVal.lt, gainQ, hd]

theorem lossS_eq (bars : List Bar) (i : ℕ) : lossS bars i = .fin (lossQ bars i) := by
  rcases eq_or_ne i 0 with rfl | h
  · simp [lossS, diffS, FVal.lt, FVal.neg, lossQ, dQ, qneg_eq]
  · rw [lossS, diffS_eq bars i h]
    by_cases hd : dQ bars i < 0
    · simp [FVal.lt, lossQ, hd, FVal.neg_fin]
    · simp [FVal.lt, lossQ, hd, FVal.neg_fin]

theorem gainQ_nonneg (bars : List Bar) (i : ℕ) : 0 ≤ gainQ bars i := by
  rw [gainQ]
  split <;> [linarith; rfl]

theorem lossQ_nonneg (bars : List Bar) (i : ℕ) : 0 ≤ lossQ bars i := by
  rw [lossQ]
  split <;> [linarith; rfl]

theorem gain_or_loss_pos (bars : List Bar) (i : ℕ) (h : dQ bars i ≠ 0) :
    0 < gainQ bars i ∨ 0 < lossQ bars i := by
  rcases lt_or_gt_of_ne h with hlt | hgt
  · right
    rw [lossQ, if_pos hlt]
    linarith
  · left
    rw [gainQ, if_pos hgt]
    exact hgt

theorem cQ_pos (bars : List Bar) (hc : ∀ b ∈ bars, 0 < b.close) (i : ℕ)
    (hi : i < bars.length) : 0 < cQ bars i := by
  rw [cQ, List.getD_eq_getElem bars default hi]
  exact hc _ (List.getElem_mem hi)

theorem vQ_pos (bars : List Bar) (hv : ∀ b ∈ bars, 0 < b.volume) (i : ℕ)
    (hi : i < bars.length) : 0 < vQ bars i := by
  rw [vQ, List.getD_eq_getElem bars default hi]
  exact hv _ (List.getElem_mem hi)

theorem DailyReturn_eq (bars : List Bar) (i : ℕ) (h0 : i ≠ 0)
    (hne : cQ bars (i - 1) ≠ 0) :
    DailyReturn bars i = .fin ((cQ bars i - cQ bars (i - 1)) / cQ bars (i - 1)) := by
  rw [DailyReturn, if_neg h0]
  rw [show (bars.getD (i - 1) default).close = cQ bars (i - 1) from rfl]
  rw [FVal.div_fin _ _ hne, qsub_eq]
  rfl

/-! RSI characterisation. -/

theorem gainMean_eq (bars : List Bar) (t : ℕ) (h : 13 ≤ t) :
    gainMean bars t = .fin (((windowIdx 14 t).map (gainQ bars)).sum / ((14 : ℕ) : ℚ)) :=
  rollMean_eq_of_fn (gainQ bars) (fun i _ => gainS_eq bars i) (by omega) (by norm_num)

theorem lossMean_eq (bars : List Bar) (t : ℕ) (h : 13 ≤ t) :
    lossMean bars t = .fin (((windowIdx 14 t).map (lossQ bars)).sum / ((14 : ℕ) : ℚ)) :=
  rollMean_eq_of_fn (lossQ bars) (fun i _ => lossS_eq bars i) (by omega) (by norm_num)

theorem gainMeanQ_nonneg (bars : List Bar) (t : ℕ) :
    0 ≤ ((windowIdx 14 t).map (gainQ bars)).sum / ((14 : ℕ) : ℚ) := by
  apply div_nonneg _ (by norm_num)
  apply List.sum_nonneg
  intro x hx
  obtain ⟨i, _, rfl⟩ := List.mem_map.1 hx
  exact gainQ_nonneg bars i

theorem lossMeanQ_nonneg (bars : List Bar) (t : ℕ) :
    0 ≤ ((windowIdx 14 t).map (lossQ bars)).sum / ((14 : ℕ) : ℚ) := by
  apply div_nonneg _ (by norm_num)
  apply List.sum_nonneg
  intro x hx
  obtain ⟨i, _, rfl⟩ := List.mem_map.1 hx
  exact lossQ_nonneg bars i

theorem lossMean_fin_t (bars : List Bar) (t : ℕ) {l : ℚ}
    (h : lossMean bars t = .fin l) : 13 ≤ t := by
  by_contra hlt
  rw [lossMean, rollMean_nan_of_lt (by omega)] at h
  exact absurd h (by simp)

theorem RSIcol_eq_of_pos_loss (bars : List Bar) (t : ℕ) {g l : ℚ}
    (hg : gainMean bars t = .fin g) (hl : lossMean bars t = .fin l)
    (hg0 : 0 ≤ g) (hl0 : 0 < l) :
    RSIcol bars t = .fin (100 - 100 / (1 + g / l)) := by
  have hgl : 0 ≤ g / l := div_nonneg hg0 hl0.le
  have h1 : (1 : ℚ) + g / l ≠ 0 := by linarith
  rw [RSIcol, hg, hl, FVal.div_fin _ _ (ne_of_gt hl0), FVal.add_fin,
    FVal.div_fin _ _ h1, FVal.sub_fin]

theorem RSI_bounds {g l : ℚ} (hg0 : 0 ≤ g) (hl0 : 0 < l) :
    0 ≤ 100 - 100 / (1 + g / l) ∧ 100 - 100 / (1 + g / l) ≤ 100 := by
  have hgl : 0 ≤ g / l := div_nonneg hg0 hl0.le
  have h1 : (0 : ℚ) < 1 + g / l := by linarith
  constructor
  · have h2 : 100 / (1 + g / l) ≤ 100 := by
      rw [div_le_iff h1]
      nlinarith
    linarith
  · have h3 : 0 < 100 / (1 + g / l) := by positivity
    linarith

theorem RSIcol_eq_hundred (bars : List Bar) (t : ℕ) {g : ℚ}
    (hg : gainMean bars t = .fin g) (hg0 : 0 < g)
    (hl : lossMean bars t = .fin 0) :
    RSIcol bars t = .fin 100 := by
  rw [RSIcol, hg, hl, FVal.div_fin_zero_pos _ hg0, FVal.add_fin_inf,
    FVal.div_fin_inf, FVal.sub_fin]
  norm_num

theorem RSIcol_nan_of_zero_means (bars : List Bar) (t : ℕ)
    (hg : gainMean bars t = .fin 0) (hl : lossMean bars t = .fin 0) :
    RSIcol bars t = .nan := by
  rw [RSIcol, hg, hl, FVal.div_zero_zero]
  rfl

theorem meanQ_pos_of_mem (l : List ℚ) (hnn : ∀ x ∈ l, 0 ≤ x) {x : ℚ}
    (hx : x ∈ l) (hxpos : 0 < x) (n : ℕ) (hn : 0 < n) : 0 < l.sum / ((n : ℕ) : ℚ) :=
  div_pos (lt_of_lt_of_le hxpos (List.single_le_sum hnn x hx)) (by positivity)

theorem meanQ_pos_of_all (l : List ℚ) (hp : ∀ x ∈ l, 0 < x) (hne : l ≠ [])
    (n : ℕ) (hn : 0 < n) : 0 < l.sum / ((n : ℕ) : ℚ) :=
  div_pos (List.sum_pos l hp hne) (by positivity)

theorem fullRow_noNaN (bars : List Bar) (t : ℕ) (ht : 49 ≤ t) (htn : t < bars.length)
    (hc : ∀ b ∈ bars, 0 < b.close) (hv : ∀ b ∈ bars, 0 < b.volume)
    (hdelta : ∃ i, i ∈ windowIdx 14 t ∧ dQ bars i ≠ 0) :
    (fullRow bars t).any FVal.isNaN = false := by
  have hcS : ∀ i, closeS bars i = .fin (cQ bars i) := fun i => rfl
  have hvS : ∀ i, volumeS bars i = .fin (vQ bars i) := fun i => rfl
  have hcF : ∀ i, ∃ q, closeS bars i = .fin q := fun i => ⟨_, rfl⟩
  -- moving averages
  have hMA : ∀ n', n' ≤ t + 1 → 0 < n' → (MAcol bars n' t).isNaN = false := by
    intro n' h1 h2
    exact isNaN_eq_false_of_fin ⟨_, rollMean_eq_of_fn (cQ bars) (fun i _ => rfl) h1 h2⟩
  -- exponential averages and MACD
  obtain ⟨e12, he12⟩ := ewm_fin 12 hcF t
  obtain ⟨e26, he26⟩ := ewm_fin 26 hcF t
  have hMACDall : ∀ i, ∃ q, MACDcol bars i = .fin q := by
    intro i
    obtain ⟨a, ha⟩ := ewm_fin 12 hcF i
    obtain ⟨b, hb⟩ := ewm_fin 26 hcF i
    exact ⟨a - b, by rw [MACDcol, EMA12, EMA26, ha, hb, FVal.sub_fin]⟩
  obtain ⟨ms, hms⟩ := ewm_fin 9 hMACDall t
  -- RSI
  have h13 : 13 ≤ t := by omega
  have hg := gainMean_eq bars t h13
  have hl := lossMean_eq bars t h13
  have hG0 := gainMeanQ_nonneg bars t
  have hL0 := lossMeanQ_nonneg bars t
  have hRSI : (RSIcol bars t).isNaN = false := by
    obtain ⟨i, hiw, hid⟩ := hdelta
    by_cases hL : 0 < ((windowIdx 14 t).map (lossQ bars)).sum / ((14 : ℕ) : ℚ)
    · exact isNaN_eq_false_of_fin ⟨_, RSIcol_eq_of_pos_loss bars t hg hl hG0 hL⟩
    · have hLz : ((windowIdx 14 t).map (lossQ bars)).sum / ((14 : ℕ) : ℚ) = 0 :=
        le_antisymm (not_lt.1 hL) hL0
      rcases gain_or_loss_pos bars i hid with hgp | hlp
      · have hGpos : 0 < ((windowIdx 14 t).map (gainQ bars)).sum / ((14 : ℕ) : ℚ) := by
          apply meanQ_pos_of_mem _ _ (List.mem_map_of_mem (gainQ bars) hiw) hgp 14 (by norm_num)
          intro x hx
          obtain ⟨j, _, rfl⟩ := List.mem_map.1 hx
          exact gainQ_nonneg bars j
        rw [hLz] at hl
        exact isNaN_eq_false_of_fin ⟨100, RSIcol_eq_hundred bars t hg hGpos hl⟩
      · exfalso
        have hLpos : 0 < ((windowIdx 14 t).map (lossQ bars)).sum / ((14 : ℕ) : ℚ) := by
          apply meanQ_pos_of_mem _ _ (List.mem_map_of_mem (lossQ bars) hiw) hlp 14 (by norm_num)
          intro x hx
          obtain ⟨j, _, rfl⟩ := List.mem_map.1 hx
          exact lossQ_nonneg bars j
        exact hL hLpos
  -- Bollinger bands
  obtain ⟨sd, hsd0⟩ := rollStd_fin_of_fn (cQ bars) (fun i _ => rfl) (by omega :
    20 ≤ t + 1)
  have hsd : bbStd bars t = .fin sd := hsd0
  have hBBM : BBMiddle bars t = .fin (((windowIdx 20 t).map (cQ bars)).sum / ((20 : ℕ) : ℚ)) :=
    rollMean_eq_of_fn (cQ bars) (fun i _ => rfl) (by omega) (by norm_num)
  have hBBU : (BBUpper bars t).isNaN = false := by
    rw [BBUpper, hBBM, hsd, FVal.mul_fin, FVal.add_fin]
    rfl
  have hBBL : (BBLower bars t).isNaN = false := by
    rw [BBLower, hBBM, hsd, FVal.mul_fin, FVal.sub_fin]
    rfl
  -- daily return
  have hcprev : 0 < cQ bars (t - 1) := cQ_pos bars hc (t - 1) (by omega)
  have hDR := DailyReturn_eq bars t (by omega) (ne_of_gt hcprev)
  -- volume features
  have hVMA : VolumeMA5 bars t = .fin (((windowIdx 5 t).map (vQ bars)).sum / ((5 : ℕ) : ℚ)) :=
    rollMean_eq_of_fn (vQ bars) (fun i _ => rfl) (by omega) (by norm_num)
  have hVMApos : 0 < ((windowIdx 5 t).map (vQ bars)).sum / ((5 : ℕ) : ℚ) := by
    apply meanQ_pos_of_all
    · intro x hx
      obtain ⟨j, hj, rfl⟩ := List.mem_map.1 hx
      have hjt : j ≤ t := ((mem_windowIdx (by omega)).1 hj).2
      exact vQ_pos bars hv j (by omega)
    · have : ((windowIdx 5 t).map (vQ bars)).length = 5 := by
        simp [length_windowIdx]
      intro hempty
      rw [hempty] at this
      simp at this
    · norm_num
  have hVR : (VolumeRatioCol bars t).isNaN = false := by
    rw [VolumeRatioCol, hVMA, hvS, FVal.div_fin _ _ (ne_of_gt hVMApos)]
    rfl
  -- volatility
  obtain ⟨vol, hvol0⟩ := rollStd_fin_of_fn
    (fun i => (cQ bars i - cQ bars (i - 1)) / cQ bars (i - 1))
    (fun i hi => by
      have hit : t + 1 - 20 ≤ i ∧ i ≤ t := (mem_windowIdx (by omega)).1 hi
      exact DailyReturn_eq bars i (by omega)
        (ne_of_gt (cQ_pos bars hc (i - 1) (by omega))))
    (by omega : 20 ≤ t + 1)
  have hvol : Volatility bars t = .fin vol := hvol0
  -- lag features
  have hCL : ∀ k, k ≤ t → (CloseLag bars k t).isNaN = false := by
    intro k hk
    simp [CloseLag, Nat.not_lt.2 hk, FVal.isNaN]
  have hVL : ∀ k, k ≤ t → (VolumeLag bars k t).isNaN = false := by
    intro k hk
    simp [VolumeLag, Nat.not_lt.2 hk, FVal.isNaN]
  -- assemble
  simp only [fullRow, List.any_cons, List.any_nil, Bool.or_false, Bool.or_eq_false_iff]
  refine ⟨rfl, rfl, rfl, rfl, rfl, hMA 5 (by omega) (by norm_num),
    hMA 10 (by omega) (by norm_num), hMA 20 (by omega) (by norm_num),
    hMA 50 (by omega) (by norm_num), ?_, ?_, ?_, ?_, hRSI, ?_, hBBU, hBBL, ?_,
    rfl, rfl, ?_, hVR, ?_, hCL 1 (by omega), hVL 1 (by omega), hCL 2 (by omega),
    hVL 2 (by omega), hCL 3 (by omega), hVL 3 (by omega), hCL 5 (by omega),
    hVL 5 (by omega), hCL 7 (by omega), hVL 7 (by omega)⟩
  · rw [EMA12, he12]
    rfl
  · rw [EMA26, he26]
    rfl
  · obtain ⟨q, hq⟩ := hMACDall t
    rw [hq]
    rfl
  · rw [MACDSignal, hms]
    rfl
  · rw [BBMiddle] at hBBM
    rw [BBMiddle, hBBM]
    rfl
  · rw [hDR]
    rfl
  · rw [hVMA]
    rfl
  · rw [hvol]
    rfl

/-! Structure of the dense feature table. -/

theorem featureTable_mem_dense (bars : List Bar) :
    ∀ r ∈ featureTable bars, r.2.any FVal.isNaN = false := by
  intro r hr
  simp only [featureTable, List.mem_filterMap, List.mem_range] at hr
  obtain ⟨t, ht, hsome⟩ := hr
  by_cases h : (fullRow bars t).any FVal.isNaN
  · rw [if_pos h] at hsome
    cases hsome
  · rw [if_neg h] at hsome
    obtain rfl := Option.some.inj hsome
    simpa using h

theorem getLast?_filterMap_range {β : Type} (n : ℕ) (g : ℕ → Option β)
    (h : (g (n - 1)).isSome) (hn : 0 < n) :
    ((List.range n).filterMap g).getLast? = g (n - 1) := by
  obtain ⟨m, rfl⟩ : ∃ m, n = m + 1 := ⟨n - 1, by omega⟩
  simp only [Nat.add_sub_cancel] at h ⊢
  obtain ⟨b, hb⟩ := Option.isSome_iff_exists.1 h
  rw [List.range_succ, List.filterMap_append]
  simp [List.filterMap, hb]

theorem featureTable_lastDate (bars : List Bar) (hn : 0 < bars.length)
    (hlast : (fullRow bars (bars.length - 1)).any FVal.isNaN = false) :
    lastDate? (featureTable bars) =
      some ((bars.getD (bars.length - 1) default).date) := by
  rw [lastDate?, featureTable, getLast?_filterMap_range _ _ _ hn]
  · rw [if_neg (by simp [hlast])]
    rfl
  · rw [if_neg (by simp [hlast])]
    rfl

theorem bars_getLast_date (bars : List Bar) (hn : 0 < bars.length) :
    bars.getLast?.map Bar.date =
      some ((bars.getD (bars.length - 1) default).date) := by
  rw [List.getLast?_eq_getElem?, List.getElem?_eq_getElem (by omega),
    List.getD_eq_getElem bars default (by omega)]
  rfl

/-- C1 (amended). For every OHLCV bar sequence of length at least 50 with
no gaps, strictly positive closes and volumes, and at least one nonzero
price change among the last 14, the Indicator Engine returns a table in
which every row has all columns defined (no NaN anywhere) and whose last
row carries the date of the last input bar. (As stated the claim is
refuted by `C1_last_date_counterexample`: with every price change zero the
RSI column is NaN everywhere, all rows are dropped, and no returned row
carries the last date.) -/
theorem C1_dense_rows_and_last_date (bars : List Bar)
    (h50 : 50 ≤ bars.length) (hgaps : noGapsB bars = true)
    (hc : ∀ b ∈ bars, 0 < b.close) (hv : ∀ b ∈ bars, 0 < b.volume)
    (hdelta : ∃ i, i < bars.length ∧ bars.length ≤ i + 14 ∧ dQ bars i ≠ 0) :
    ∃ table, engineer_features bars = some table ∧
      (∀ r ∈ table, r.2.any FVal.isNaN = false) ∧
      lastDate? table = bars.getLast?.map Bar.date := by
  refine ⟨featureTable bars, rfl, featureTable_mem_dense bars, ?_⟩
  have hlast : (fullRow bars (bars.length - 1)).any FVal.isNaN = false := by
    apply fullRow_noNaN bars _ (by omega) (by omega) hc hv
    obtain ⟨i, h1, h2, h3⟩ := hdelta
    exact ⟨i, (mem_windowIdx (by omega)).2 ⟨by omega, by omega⟩, h3⟩
  rw [featureTable_lastDate bars (by omega) hlast, bars_getLast_date bars (by omega)]

/-- Witness for C1: the hypotheses and conclusion hold at the concrete
fifty increasing bars. -/
theorem C1_dense_rows_and_last_date_witness :
    ∃ table, engineer_features incBars = some table ∧
      (∀ r ∈ table, r.2.any FVal.isNaN = false) ∧
      lastDate? table = incBars.getLast?.map Bar.date :=
  C1_dense_rows_and_last_date incBars (by decide) (by decide) (by decide)
    (by decide) ⟨49, by decide, by decide, by decide⟩

/-- Counterexample to C1 as stated: fifty gap-free constant-close bars
satisfy the claim hypotheses (length 50, no gaps), yet the returned table
is empty, so no returned row carries the last input date 49. -/
theorem C1_last_date_counterexample :
    constBars.length = 50 ∧ noGapsB constBars = true ∧
    engineer_features constBars = some [] ∧
    lastDate? (featureTable constBars) = none ∧
    constBars.getLast?.map Bar.date = some 49 := by
  refine ⟨by decide, by decide, by decide, by decide, by decide⟩

/-- C3 (amended). RSI is finite and within [0, 100] whenever the rolling
14-bar loss mean is strictly positive; when the loss mean is zero the
bar's RSI is 100 (a defined value, the row is not dropped) provided the
gain mean is positive, and RSI is NaN only when gain and loss means are
both zero. (The second half of the claim as stated is refuted by
`C3_zero_loss_counterexample`.) -/
theorem C3_rsi_bounded (bars : List Bar) (t : ℕ) :
    (∀ l : ℚ, lossMean bars t = .fin l → 0 < l →
      ∃ r, RSIcol bars t = .fin r ∧ 0 ≤ r ∧ r ≤ 100) ∧
    (∀ g : ℚ, lossMean bars t = .fin 0 → gainMean bars t = .fin g → 0 < g →
      RSIcol bars t = .fin 100) ∧
    (lossMean bars t = .fin 0 → gainMean bars t = .fin 0 →
      RSIcol bars t = .nan) := by
  refine ⟨?_, ?_, ?_⟩
  · intro l hl hl0
    have h13 := lossMean_fin_t bars t hl
    have hg := gainMean_eq bars t h13
    have hG0 := gainMeanQ_nonneg bars t
    exact ⟨_, RSIcol_eq_of_pos_loss bars t hg hl hG0 hl0,
      (RSI_bounds hG0 hl0).1, (RSI_bounds hG0 hl0).2⟩
  · intro g hl hg hg0
    exact RSIcol_eq_hundred bars t hg hg0 hl
  · intro hl hg
    exact RSIcol_nan_of_zero_means bars t hg hl

/-- Witness for C3: with fifty strictly decreasing bars the loss mean at
index 49 is 1 > 0 and the theorem yields a bounded RSI value there. -/
theorem C3_rsi_bounded_witness :
    lossMean decBars 49 = .fin 1 ∧
    ∃ r, RSIcol decBars 49 = .fin r ∧ 0 ≤ r ∧ r ≤ 100 :=
  ⟨by decide, (C3_rsi_bounded decBars 49).1 1 (by decide) (by norm_num)⟩

/-- Counterexample to C3 as stated: with fifty strictly increasing bars
the loss mean at index 49 is 0, yet RSI is the defined value 100 and the
bar IS returned (the table keeps exactly the row of date 49), against
the claim that such a row is undefined and dropped. -/
theorem C3_zero_loss_counterexample :
    lossMean incBars 49 = .fin 0 ∧ RSIcol incBars 49 = .fin 100 ∧
    (featureTable incBars).map Prod.fst = [49] := by
  refine ⟨by decide, by decide, by decide⟩

/-- C4 (amended). When the dense feature table is empty the Indicator
Engine does not fail: engineer_features returns the empty table to the
rest of the pipeline (there is no InsufficientHistoryError anywhere in
the code; the run only dies later when the input preparer hands the
empty slice to the scaler). -/
theorem C4_empty_table_returned (bars : List Bar)
    (h : featureTable bars = []) : engineer_features bars = some [] := by
  rw [engineer_features, h]

/-- Witness for C4: the constant-close bars produce an empty dense table
and engineer_features returns it as a value. -/
theorem C4_empty_table_returned_witness :
    featureTable constBars = [] ∧ engineer_features constBars = some [] :=
  ⟨by decide, C4_empty_table_returned constBars (by decide)⟩

/-- Counterexample to C4 as stated: on fifty valid constant bars the
feature table is empty and the engine returns it (some []) instead of
raising a fatal error. -/
theorem C4_no_error_counterexample :
    constBars.length = 50 ∧ engineer_features constBars = some [] := by
  refine ⟨by decide, by decide⟩

/-! Signal classifier. -/

/-- C2 (amended). The classifier follows the ordered rule list of the
claim, except that a zero RSI is treated exactly like an absent RSI (the
source guards the RSI branch with bare truthiness): for every input,
get_signal agrees with the claim rules applied to the RSI argument with
some 0 replaced by none, and the four concrete examples of the claim
hold. (The claim as stated, where any present RSI value engages the
RSI-conditioned rules, is refuted by `C2_zero_rsi_counterexample`.) -/
theorem C2_signal_rules (pct : ℚ) (rsi : Option ℚ) :
    get_signal pct rsi = classify_claim pct (if rsi = some 0 then none else rsi) ∧
    get_signal (mkRat 5 2) (some 50) = ("🟢 STRONG BUY", "signal-buy") ∧
    get_signal (mkRat 3 10) none = ("🟡 HOLD", "signal-hold") ∧
    get_signal (-3) (some 40) = ("🔴 STRONG SELL", "signal-sell") ∧
    get_signal (mkRat (-1) 2) (some 36) = ("🟡 HOLD", "signal-hold") := by
  refine ⟨?_, by decide, by decide, by decide, by decide⟩
  cases rsi with
  | none => simp [get_signal, pyTruthy, classify_claim]
  | some r =>
      by_cases hr : r = 0
      · subst hr
        simp [get_signal, pyTruthy, classify_claim]
      · simp [get_signal, pyTruthy, classify_claim, hr]

/-- Counterexample to C2 as stated: at pct_change = -3 with the provided
RSI value 0 the code returns STRONG SELL through the no-RSI thresholds,
while the claim rule list (STRONG_SELL needs rsi > 30) yields HOLD. -/
theorem C2_zero_rsi_counterexample :
    get_signal (-3) (some 0) = ("🔴 STRONG SELL", "signal-sell") ∧
    classify_claim (-3) (some 0) = ("🟡 HOLD", "signal-hold") := by
  refine ⟨by decide, by decide⟩

/-- C10 (confirmed): for every pct_change, a zero RSI classifies exactly
as an absent RSI, because the source tests bare truthiness of rsi. -/
theorem C10_zero_rsi_is_absent (pct : ℚ) :
    get_signal pct (some 0) = get_signal pct none := by
  simp [get_signal, pyTruthy]

/-! Result logger. -/

/-- C5 (amended). Both result loggers compute price_change = predicted -
current and price_change_pct = price_change / current x 100 for every
nonzero current price; the multi-ticker monitor stores every numeric
field rounded to 2 decimals, while the legacy script stores the raw
unrounded values (see `C5_unrounded_counterexample`); the concrete
example 100 -> 102 gives price_change 2.0 and price_change_pct 2.0 in
both. -/
theorem C5_logger_computation (current predicted : ℚ) (rsi macd : Option ℚ)
    (log : List LogEntry) (h : current ≠ 0) :
    log_result current predicted rsi macd log =
      (some ⟨pyRound2 current, pyRound2 predicted, pyRound2 (predicted - current),
        pyRound2 ((predicted - current) / current * 100),
        rsi.map pyRound2, macd.map pyRound2⟩,
       log ++ [⟨pyRound2 current, pyRound2 predicted, pyRound2 (predicted - current),
        pyRound2 ((predicted - current) / current * 100),
        rsi.map pyRound2, macd.map pyRound2⟩]) ∧
    log_result_scripts current predicted rsi macd log =
      (some ⟨current, predicted, predicted - current,
        (predicted - current) / current * 100, rsi, macd⟩,
       log ++ [⟨current, predicted, predicted - current,
        (predicted - current) / current * 100, rsi, macd⟩]) ∧
    log_result 100 102 none none [] =
      (some ⟨100, 102, 2, 2, none, none⟩, [⟨100, 102, 2, 2, none, none⟩]) ∧
    log_result_scripts 100 102 none none [] =
      (some ⟨100, 102, 2, 2, none, none⟩, [⟨100, 102, 2, 2, none, none⟩]) := by
  refine ⟨?_, ?_, by decide, by decide⟩
  · simp only [log_result, if_neg h, qsub_eq, qdiv_eq, qmul_eq]
  · simp only [log_result_scripts, if_neg h, qsub_eq, qdiv_eq, qmul_eq]

/-- Witness for C5: the theorem applied at the concrete example of the
claim. -/
theorem C5_logger_computation_witness :
    log_result 100 102 none none [] =
      (some ⟨100, 102, 2, 2, none, none⟩, [⟨100, 102, 2, 2, none, none⟩]) :=
  (C5_logger_computation 100 102 none none [] (by norm_num)).2.2.1

/-- Counterexample to C5 as stated: the legacy script logger appends the
record for current 3, predicted 4 with the exact percentage 100/3, which
no 2-decimal rounding equals. -/
theorem C5_unrounded_counterexample :
    (log_result_scripts 3 4 none none []).2 =
      [⟨3, 4, 1, mkRat 100 3, none, none⟩] ∧
    pyRound2 (mkRat 100 3) ≠ mkRat 100 3 := by
  refine ⟨by decide, by decide⟩

/-- C6 (confirmed). With a zero current price the division raises, the
except returns None before the file write, so no record is appended (the
log value is unchanged) in both logger versions, and the pipeline step
that receives None exits with status 1. -/
theorem C6_zero_price_aborts (predicted : ℚ) (rsi macd : Option ℚ)
    (log : List LogEntry) :
    log_result 0 predicted rsi macd log = (none, log) ∧
    log_result_scripts 0 predicted rsi macd log = (none, log) ∧
    pipelineLogStep (log_result 0 predicted rsi macd log).1 = .error 1 := by
  refine ⟨?_, ?_, ?_⟩ <;> simp [log_result, log_result_scripts, pipelineLogStep]

/-! Input preparer. -/

theorem idxsOf?_none {features cols : List String} (c : String)
    (hc : c ∈ features) (hnone : cols.indexOf? c = none) :
    idxsOf? cols features = none := by
  induction features with
  | nil => cases hc
  | cons x xs ih =>
      rcases List.mem_cons.1 hc with rfl | hmem
      · simp [idxsOf?, hnone]
      · cases h : cols.indexOf? x with
        | none => simp [idxsOf?, h]
        | some i => simp [idxsOf?, h, ih hmem]

theorem fillZeroCell_of_notNaN {x : FVal} (h : x.isNaN = false) :
    fillZeroCell x = x := by
  rw [fillZeroCell, h]
  rfl

theorem fill_branch_eq (r1 : List FVal) :
    (if [r1].any (fun r => r.any FVal.isNaN) then
        (ffillRows [r1]).map fun r => r.map fillZeroCell
      else [r1]) = [r1.map fillZeroCell] := by
  by_cases h : r1.any FVal.isNaN
  · simp [h, ffillRows, ffillAux]
  · rw [if_neg (by simpa using h)]
    have hall : ∀ x ∈ r1, fillZeroCell x = x := by
      intro x hx
      apply fillZeroCell_of_notNaN
      rw [List.any_eq_true] at h
      push_neg at h
      simpa using h x hx
    rw [show r1.map fillZeroCell = r1 from by
      rw [List.map_congr_left hall]
      simp]

/-- C7 (amended). The Input Preparer selects exactly the declared feature
columns in order and fails when one is absent; it then slices the most
recent row FIRST, so the forward-fill step never sees an earlier row and
every value that is infinite or undefined in that row simply becomes 0
before scaling: prepare_input coincides with the variant that has no
forward-fill step at all, on every input. (The claim as stated, filling
from earlier rows of the table, is refuted by `C7_ffill_counterexample`.) -/
theorem C7_prepare_input_no_backfill
    (scaler : List (List ℚ) → Option (List (List ℚ)))
    (features cols : List String) (rows : List (List FVal)) :
    (∀ c ∈ features, cols.indexOf? c = none →
      prepare_input scaler features cols rows = none) ∧
    prepare_input scaler features cols rows =
      prepare_input_nofill scaler features cols rows := by
  constructor
  · intro c hc hnone
    rw [prepare_input, selectCols, idxsOf?_none c hc hnone]
    rfl
  · rw [prepare_input, prepare_input_nofill]
    cases hsel : selectCols cols features rows with
    | none => rfl
    | some sel =>
        simp only []
        have hlen : (sel.drop (sel.length - 1)).length ≤ 1 := by
          rw [List.length_drop]
          omega
        cases hl : sel.drop (sel.length - 1) with
        | nil => rfl
        | cons r rs =>
            have hrs : rs = [] := by
              rw [hl] at hlen
              simpa using List.length_eq_zero.1 (by simpa using hlen)
            subst hrs
            simp only [List.map_cons, List.map_nil]
            rw [fill_branch_eq]
            simp only [List.map_map, Function.comp_def]

/-- Witness for C7: a declared feature absent from the table makes the
preparer fail, here with feature RSI against a table that only has a
Close column. -/
theorem C7_prepare_input_no_backfill_witness :
    prepare_input (fun q => some q) ["RSI"] ["Close"] [] = none :=
  (C7_prepare_input_no_backfill (fun q => some q) ["RSI"] ["Close"] []).1
    "RSI" (by decide) (by decide)

/-- Counterexample to C7 as stated: on a two-row table whose feature is 5
then NaN, the code zero-fills the NaN of the sliced last row and prepares
0, while the claim procedure forward-fills the 5 from the earlier row and
prepares 5. -/
theorem C7_ffill_counterexample :
    prepare_input (fun q => some q) ["RSI"] ["RSI"] [[.fin 5], [.nan]] =
      some ([[0]], [[.fin 0]]) ∧
    prepare_input_claim (fun q => some q) ["RSI"] ["RSI"] [[.fin 5], [.nan]] =
      some ([[5]], [[.fin 5]]) := by
  refine ⟨by decide, by decide⟩

/-! Subscriber store. -/

theorem lookup_const_nil_getD (ks : List String) (t : String) :
    (((ks.map fun k => (k, ([] : List String))).lookup t).getD []) = [] := by
  induction ks with
  | nil => rfl
  | cons k ks ih =>
      cases h : (t == k) <;> simp [List.lookup_cons, h, ih]

/-- C8 (amended). On a legacy flat-list store, the monitor loader and the
per-ticker dashboard reader return the whole list for every symbol; the
multi-ticker dashboard loader instead replaces the legacy shape by an
empty per-symbol map, so its reads return no subscribers for any symbol.
All three are pure reads of the store value: none writes anything back
(each is embedded as a function of the store returning only the read
result). The claim as stated, that every reader returns the full list,
is refuted by `C8_dashboard_empty_counterexample`. -/
theorem C8_legacy_flat_reads (l : List String) (ticker : String) :
    monitorLoadSubscribers ticker (.flat l) = l ∧
    getSubscribersPT ticker (.flat l) = l ∧
    appGetSubscribers ticker (.flat l) = [] := by
  refine ⟨rfl, rfl, ?_⟩
  rw [appGetSubscribers, appLoadSubscribers]
  exact lookup_const_nil_getD tickersKeys ticker

/-- Counterexample to C8 as stated: with the legacy store that holds one
subscriber, the monitor read returns it but the multi-ticker dashboard
read returns the empty list for AAPL. -/
theorem C8_dashboard_empty_counterexample :
    monitorLoadSubscribers "AAPL" (.flat ["user@mail.com"]) = ["user@mail.com"] ∧
    appGetSubscribers "AAPL" (.flat ["user@mail.com"]) = [] := by
  refine ⟨rfl, by decide⟩

theorem lookup_append_of_none {m : List (String × List String)} {k : String}
    (h : m.lookup k = none) (suffix : List (String × List String)) :
    (m ++ suffix).lookup k = suffix.lookup k := by
  induction m with
  | nil => rfl
  | cons p m ih =>
      obtain ⟨a, b⟩ := p
      rw [List.lookup_cons] at h
      rw [List.cons_append, List.lookup_cons]
      cases hk : (k == a)
      · rw [hk] at h
        exact ih h
      · rw [hk] at h
        cases h

theorem lookup_setdefault_self (k : String) (m : List (String × List String)) :
    (setdefaultKey k m).lookup k = some ((m.lookup k).getD []) := by
  rw [setdefaultKey]
  cases h : m.lookup k with
  | some v =>
      rw [if_pos (by simp [h])]
      simp [h]
  | none =>
      rw [if_neg (by simp [h]), lookup_append_of_none h]
      simp [List.lookup_cons]

theorem lookup_appendAt_self (k e : String) (m : List (String × List String))
    {v : List String} (h : m.lookup k = some v) :
    (appendAt k e m).lookup k = some (v ++ [e]) := by
  induction m with
  | nil => cases h
  | cons p m ih =>
      obtain ⟨a, b⟩ := p
      rw [List.lookup_cons] at h
      by_cases hk : k = a
      · subst hk
        simp only [beq_self_eq_true] at h
        obtain rfl := Option.some.inj h
        simp [appendAt, List.lookup_cons]
      · have hbeq : (k == a) = false := by
          simpa using hk
        rw [hbeq] at h
        have hne : ¬(a = k) := fun he => hk he.symm
        simp only [appendAt, List.map_cons, if_neg hne, List.lookup_cons, hbeq]
        exact ih h

/-- C9 (confirmed). Adding the same email to the same symbol twice is
idempotent: whatever the first add did, the second add reports that the
email is already subscribed and returns the stored document unchanged. -/
theorem C9_add_twice_idempotent (s : EmailsVal) (ticker email : String) :
    add_subscriber ticker email (add_subscriber ticker email s).2 =
      ((false, "Already subscribed to this ticker."),
        (add_subscriber ticker email s).2) := by
  by_cases h : email ∈
      ((setdefaultKey ticker (migrateEmails s)).lookup ticker).getD []
  · have h1 : add_subscriber ticker email s =
        ((false, "Already subscribed to this ticker."), s) := by
      simp only [add_subscriber]
      rw [if_pos h]
    rw [h1]
    simp only [add_subscriber]
    rw [if_pos h]
  · have h1 : add_subscriber ticker email s =
        ((true, "Successfully subscribed! 🎉"), .perTicker
          (appendAt ticker email (setdefaultKey ticker (migrateEmails s)))) := by
      simp only [add_subscriber]
      rw [if_neg h]
    rw [h1]
    simp only [add_subscriber]
    have hv := lookup_setdefault_self ticker (migrateEmails s)
    have happ := lookup_appendAt_self ticker email _ hv
    have hsd2 : setdefaultKey ticker
        (appendAt ticker email (setdefaultKey ticker (migrateEmails s))) =
        appendAt ticker email (setdefaultKey ticker (migrateEmails s)) := by
      rw [setdefaultKey, if_pos (by simp [happ])]
    rw [show migrateEmails (EmailsVal.perTicker (appendAt ticker email
        (setdefaultKey ticker (migrateEmails s)))) =
      appendAt ticker email (setdefaultKey ticker (migrateEmails s)) from rfl]
    rw [hsd2, if_pos (by rw [happ]; simp)]
